import Mathlib

/-!
Verification development for the ytdlp subtitle synchronization engine
(package `ytdlp_subs`).  The Python source is shallowly embedded: strings
are `List Char`, pure functions become Lean functions, fallible code
returns `Except`/`Option`, and the external extraction tool, the cache
file and the filesystem are modelled as explicit oracle parameters.
-/

/-- Characters of the video platform identifier alphabet, the character
class of `FileSystemSubtitleRepository.VIDEO_ID_PATTERN`:
`[a-zA-Z0-9_-]`. -/
def isIdChar (c : Char) : Bool :=
  c.isAlpha || c.isDigit || c = '_' || c = '-'

/-- `VideoId.__post_init__` (domain/models.py lines 56-59): raises
`ValueError` iff the string is empty or its length differs from 11.
`none` models the raised `ValueError`. -/
def mkVideoId (s : List Char) : Option (List Char) :=
  if s.isEmpty || s.length ≠ 11 then none else some s

/-- Characters removed by `FilenameGenerator.INVALID_CHARS_PATTERN`,
the regex character class of filename-illegal characters. -/
def isInvalidFilenameChar (c : Char) : Bool :=
  c = '\\' || c = '/' || c = '*' || c = '?' || c = ':' ||
  c = '"' || c = '<' || c = '>' || c = '|'

/-- Python `str.strip()` on ASCII whitespace. -/
def pyStrip (s : List Char) : List Char :=
  ((s.dropWhile Char.isWhitespace).reverse.dropWhile Char.isWhitespace).reverse

/-- `FilenameGenerator._sanitize_title`: drop illegal characters, strip,
truncate to `MAX_TITLE_LENGTH = 100`, substitute `UnknownTitle` if empty. -/
def sanitizeTitle (t : List Char) : List Char :=
  let s := pyStrip (t.filter (fun c => !isInvalidFilenameChar c))
  let s := if s.length > 100 then s.take 100 else s
  if s.isEmpty then "UnknownTitle".toList else s

/-- The decimal digit character of `n % 10`. -/
def digitChar (n : Nat) : Char := Char.ofNat (48 + n % 10)

/-- Fuel-driven decimal rendering (structural recursion so the kernel can
reduce it). -/
def natDigitsAux : Nat → Nat → List Char
  | 0, _ => []
  | fuel + 1, n =>
    if n < 10 then [digitChar n]
    else natDigitsAux fuel (n / 10) ++ [digitChar (n % 10)]

/-- Python `str(n)` for a non-negative integer: its decimal digits. -/
def natDigits (n : Nat) : List Char := natDigitsAux (n + 1) n

/-- Python `str.zfill(width)` for an unsigned digit string: left-pad
with `0` to `width`. -/
def zfill (w : Nat) (s : List Char) : List Char :=
  if w ≤ s.length then s else List.replicate (w - s.length) '0' ++ s

/-- `FilenameGenerator._generate_number_prefix`: zero-pad the index to
width 4 when no total is given, else to the digit count of the total. -/
def generateNumberTag (index : Nat) (totalCount : Option Nat) : List Char :=
  match totalCount with
  | none => zfill 4 (natDigits index)
  | some t => zfill (natDigits t).length (natDigits index)

/-- `FilenameGenerator.generate_filename`:
`[number_]videoId_sanitizedTitle.language.format`.  The numbering tag is
added only when numbering is enabled and an index was passed. -/
def generateFilename (enableNumbering : Bool) (videoId : List Char)
    (title : List Char) (language : List Char) (fmt : List Char)
    (index : Option Nat) (totalCount : Option Nat) : List Char :=
  let safeTitle := sanitizeTitle title
  let baseName := videoId ++ '_' :: safeTitle
  let baseName :=
    match index with
    | some i =>
      if enableNumbering then generateNumberTag i totalCount ++ '_' :: baseName
      else baseName
    | none => baseName
  baseName ++ '.' :: language ++ '.' :: fmt

/-- The capturing tail of `VIDEO_ID_PATTERN`: eleven characters of the
identifier alphabet followed by an underscore (`([a-zA-Z0-9_-]{11})_.*`),
matched at the start of `s`. -/
def tryCapture (s : List Char) : Option (List Char) :=
  let c := s.take 11
  if c.length = 11 && c.all isIdChar && s[11]? = some '_' then some c
  else none

/-- Length of the leading decimal-digit run of `s`. -/
def digitRunLen (s : List Char) : Nat := (s.takeWhile Char.isDigit).length

/-- Backtracking search of the optional digit branch of
`VIDEO_ID_PATTERN` (`(?:\d+_)?`): the digit count is tried greedily from
`n` down to 1; for digit count `k` the underscore must sit at index `k`
and the capture must succeed on the remainder.  Callers pass
`n = digitRunLen s`, so the digit test itself is satisfied for every `k`
tried. -/
def tryDigitRun (s : List Char) : Nat → Option (List Char)
  | 0 => none
  | j + 1 =>
    if s[j + 1]? = some '_' then
      match tryCapture (s.drop (j + 2)) with
      | some v => some v
      | none => tryDigitRun s j
    else tryDigitRun s j

/-- `FileSystemSubtitleRepository.VIDEO_ID_PATTERN.match(name)` followed
by `group(1)`: Python regex `^(?:\d+_)?([a-zA-Z0-9_-]{11})_.*` with its
leftmost greedy backtracking semantics. -/
def parseVideoId (s : List Char) : Option (List Char) :=
  match tryDigitRun s (digitRunLen s) with
  | some v => some v
  | none => tryCapture s

/-- Outcome of one `yt-dlp` fetch-subtitle invocation for one
(video, language) pair, as observed by
`YtDlpSubtitleDownloader.download_subtitle`:
non-zero exit / executor exception, unparseable JSON on stdout, JSON
whose `requested_subtitles` lacks the language, or JSON naming the
produced extension together with whether the announced temp file is
actually present on disk. -/
inductive ToolOutcome where
  | execError : ToolOutcome
  | badJson : ToolOutcome
  | noSubs : ToolOutcome
  | subs : List Char → Bool → ToolOutcome
deriving DecidableEq

/-- Reasons `download_subtitle` raises `DownloadError`. -/
inductive DlErr where
  | toolFailure : DlErr
  | parseFailure : DlErr
  | missingFile : DlErr
  | badFormat : DlErr
deriving DecidableEq

/-- The `SubtitleFormat` enum: `vtt`, `srt`, `txt`.  `SubtitleFormat(ext)`
raises `ValueError` for any other extension. -/
def validFormat (e : List Char) : Bool :=
  e = "vtt".toList || e = "srt".toList || e = "txt".toList

/-- `YtDlpSubtitleDownloader.download_subtitle` (lines 70-148): executor
failure and JSON decode failure raise `DownloadError`; a missing language
key returns `None`; a reported subtitle whose temp file is absent raises
`DownloadError` (lines 94-104); otherwise the file is returned with its
extension (an unsupported extension raises through
`SubtitleFormat(ext)`). -/
def downloadSubtitle : ToolOutcome → Except DlErr (Option (List Char))
  | .execError => .error .toolFailure
  | .badJson => .error .parseFailure
  | .noSubs => .ok none
  | .subs ext onDisk =>
    if onDisk then
      if validFormat ext then .ok (some ext) else .error .badFormat
    else .error .missingFile

/-- Result of `DownloadOrchestrator._process_video` for one video:
success at a language with an extension, normal return with no subtitle
found, or a raised exception (caught by `execute`). -/
inductive VideoOutcome where
  | success : List Char → List Char → VideoOutcome
  | noneFound : VideoOutcome
  | errored : DlErr → VideoOutcome
deriving DecidableEq

/-- The language loop of `_process_video` (lines 204-277): languages are
tried in preference order; `None` continues, a subtitle returns at once,
and a raised `DownloadError` aborts the loop.  Returns the list of
languages for which a download call was made, together with the loop's
outcome. -/
def processLangs (tool : List Char → ToolOutcome) :
    List (List Char) → List (List Char) × VideoOutcome
  | [] => ([], .noneFound)
  | l :: rest =>
    match downloadSubtitle (tool l) with
    | .error e => ([l], .errored e)
    | .ok none =>
      let r := processLangs tool rest
      (l :: r.1, r.2)
    | .ok (some ext) => ([l], .success l ext)

/-- Trace record of one video handled by the processing loop of
`DownloadOrchestrator.execute`: the video id, the `current_index` passed
to `_process_video`, the languages actually called, the outcome, and the
final filename when one was produced. -/
structure RunEntry where
  vid : List Char
  index : Nat
  calls : List (List Char)
  outcome : VideoOutcome
  artifact : Option (List Char)
deriving DecidableEq

/-- `DownloadProgress` counters (total/processed/skipped/failed). -/
structure Progress where
  total : Nat
  processed : Nat
  skipped : Nat
  failed : Nat
deriving DecidableEq

/-- `_process_video` for one video: run the language loop and, on
success, build the final filename exactly as lines 226-239 do
(metadata absent falls back to the title `UnknownTitle`). -/
def processVideo (enableNumbering : Bool) (prefs : List (List Char))
    (tool : List Char → List Char → ToolOutcome)
    (titleOf : List Char → Option (List Char)) (totalCount : Nat)
    (vid : List Char) (index : Nat) : RunEntry :=
  let r := processLangs (tool vid) prefs
  let artifact :=
    match r.2 with
    | .success lang ext =>
      some (generateFilename enableNumbering vid
        ((titleOf vid).getD "UnknownTitle".toList) lang ext
        (some index) (some totalCount))
    | _ => none
  ⟨vid, index, r.1, r.2, artifact⟩

/-- The `for idx, video_id in enumerate(videos_to_download, start=1)`
loop of `execute` (lines 130-157): each video is processed with
`current_index = idx + skipped`; an exception increments `failed_videos`,
a normal return increments `processed_videos`, and the loop always
advances to the next video. -/
def runLoop (enableNumbering : Bool) (prefs : List (List Char))
    (tool : List Char → List Char → ToolOutcome)
    (titleOf : List Char → Option (List Char))
    (totalCount skipped : Nat) :
    List (List Char) → Nat → Progress → Progress × List RunEntry
  | [], _, p => (p, [])
  | v :: rest, idx, p =>
    let e := processVideo enableNumbering prefs tool titleOf totalCount v
      (idx + skipped)
    let p2 :=
      match e.outcome with
      | .errored _ => { p with failed := p.failed + 1 }
      | _ => { p with processed := p.processed + 1 }
    let r := runLoop enableNumbering prefs tool titleOf totalCount skipped
      rest (idx + 1) p2
    (r.1, e :: r.2)

/-- `videos_to_download = [vid for vid in all_video_ids if vid not in
downloaded_ids]` (execute line 108). -/
def videosToDownload (allIds downloaded : List (List Char)) : List (List Char) :=
  allIds.filter (fun v => !downloaded.contains v)

/-- `DownloadOrchestrator.execute` after channel resolution
(lines 95-168): empty channel returns all-zero progress; otherwise the
already-downloaded ids are filtered out, `skipped_videos` is the size of
the downloaded set, and the remaining videos are processed in order. -/
def executeRun (enableNumbering : Bool) (allIds downloaded : List (List Char))
    (prefs : List (List Char))
    (tool : List Char → List Char → ToolOutcome)
    (titleOf : List Char → Option (List Char)) : Progress × List RunEntry :=
  if allIds.isEmpty then (⟨0, 0, 0, 0⟩, [])
  else
    let toDownload := videosToDownload allIds downloaded
    let p0 : Progress := ⟨allIds.length, 0, downloaded.length, 0⟩
    if toDownload.isEmpty then (p0, [])
    else runLoop enableNumbering prefs tool titleOf allIds.length
      downloaded.length toDownload 1 p0

/-- Channel-level and cache-level failures that propagate out of
`DownloadOrchestrator.execute` and terminate the run.  `fetchError`
embeds `VideoFetchError` (the spec's `ChannelFetchError`), `cacheError`
embeds `CacheError`. -/
inductive RunError where
  | fetchError : RunError
  | cacheError : RunError
deriving DecidableEq

/-- `YtDlpVideoRepository.get_channel_video_ids` (lines 104-150) over the
modelled tool invocation: an executor failure raises `VideoFetchError`;
otherwise stdout lines are stripped and blank lines dropped; zero
remaining lines return the empty list (no error); an invalid id line
raises `VideoFetchError` through `VideoId`'s `ValueError`. -/
def getChannelVideoIds (toolList : Except Unit (List (List Char))) :
    Except RunError (List (List Char)) :=
  match toolList with
  | .error _ => .error .fetchError
  | .ok rawLines =>
    let lines := (rawLines.map pyStrip).filter (fun l => !l.isEmpty)
    if lines.isEmpty then .ok []
    else if lines.all (fun l => (mkVideoId l).isSome) then .ok lines
    else .error .fetchError

/-- `FileCacheRepository.get_cached_video_ids` (lines 26-76):
no configured or missing cache file returns `None`; an I/O failure while
reading raises `CacheError`; stripped non-blank lines that are all valid
ids are returned, an empty set of lines is `None`, and an invalid id
line raises `CacheError` through `ValueError`. -/
def getCachedVideoIds (cacheConfigured fileExists : Bool)
    (readLines : Except Unit (List (List Char))) :
    Except Unit (Option (List (List Char))) :=
  if !cacheConfigured || !fileExists then .ok none
  else
    match readLines with
    | .error _ => .error ()
    | .ok rawLines =>
      let lines := (rawLines.map pyStrip).filter (fun l => !l.isEmpty)
      if lines.isEmpty then .ok none
      else if lines.all (fun l => (mkVideoId l).isSome) then .ok (some lines)
      else .error ()

/-- `DownloadOrchestrator._get_channel_videos` (lines 170-186): unless
`force_refresh` is set, the cache is consulted first — note that a
`CacheError` raised there is not caught and propagates; a non-empty
cached list is returned verbatim; otherwise the network fetch runs and
its result is saved to the cache (`save_video_ids` may itself raise
`CacheError`, modelled by `saveResult`). -/
def getChannelVideos (forceRefresh : Bool)
    (cacheRead : Except Unit (Option (List (List Char))))
    (network : Except Unit (List (List Char)))
    (saveResult : Except Unit Unit) : Except RunError (List (List Char)) :=
  let fetch : Except RunError (List (List Char)) :=
    match getChannelVideoIds network with
    | .error e => .error e
    | .ok ids =>
      match saveResult with
      | .error _ => .error .cacheError
      | .ok _ => .ok ids
  if forceRefresh then fetch
  else
    match cacheRead with
    | .error _ => .error .cacheError
    | .ok (some ids) => if ids.isEmpty then fetch else .ok ids
    | .ok none => fetch

/-- `DownloadOrchestrator.execute` end to end: resolve the channel
(cache, then network), then run the processing loop; resolution failures
propagate and terminate the run. -/
def fullRun (forceRefresh enableNumbering : Bool)
    (cacheRead : Except Unit (Option (List (List Char))))
    (network : Except Unit (List (List Char)))
    (saveResult : Except Unit Unit) (downloaded : List (List Char))
    (prefs : List (List Char))
    (tool : List Char → List Char → ToolOutcome)
    (titleOf : List Char → Option (List Char)) :
    Except RunError (Progress × List RunEntry) :=
  match getChannelVideos forceRefresh cacheRead network saveResult with
  | .error e => .error e
  | .ok allIds =>
    .ok (executeRun enableNumbering allIds downloaded prefs tool titleOf)

/-- Outcome the language loop produces when it stops at language `l`
with downloader result `r`. -/
def stopOutcome (l : List Char) : Except DlErr (Option (List Char)) → VideoOutcome
  | .error e => .errored e
  | .ok none => .noneFound
  | .ok (some ext) => .success l ext

/-- Number of trace entries whose video raised an exception. -/
def countErrored (tr : List RunEntry) : Nat :=
  (tr.filter (fun e =>
    match e.outcome with
    | .errored _ => true
    | _ => false)).length

/-- Number of trace entries whose video returned normally. -/
def countOk (tr : List RunEntry) : Nat :=
  (tr.filter (fun e =>
    match e.outcome with
    | .errored _ => false
    | _ => true)).length

/-- Pure description of the trace the processing loop produces. -/
def traceOf (enableNumbering : Bool) (prefs : List (List Char))
    (tool : List Char → List Char → ToolOutcome)
    (titleOf : List Char → Option (List Char)) (totalCount skipped : Nat) :
    List (List Char) → Nat → List RunEntry
  | [], _ => []
  | v :: rest, idx =>
    processVideo enableNumbering prefs tool titleOf totalCount v
      (idx + skipped) ::
    traceOf enableNumbering prefs tool titleOf totalCount skipped rest (idx + 1)

/-- Whether a trace entry's video raised an exception in the loop. -/
def isFailedEntry (e : RunEntry) : Bool :=
  match e.outcome with
  | .errored _ => true
  | _ => false

/-- Sample identifiers and codes used in concrete counterexamples and
witnesses. -/
def idA : List Char := "aaaaaaaaaaa".toList

def idB : List Char := "bbbbbbbbbbb".toList

def idC : List Char := "ccccccccccc".toList

def langHi : List Char := "hi".toList

def langEn : List Char := "en".toList

def extVtt : List Char := "vtt".toList

/-- C9 counterexample input: eleven question marks, a string of valid
length whose characters lie outside the identifier alphabet. -/
def elevenMarks : List Char := List.replicate 11 '?'

/-- Precondition under which the un-numbered filename cannot be
mis-parsed through the optional digit branch: the video id does not
begin with a non-empty digit run immediately followed by an underscore,
and the id is not made of digits only. -/
def digitUnderscoreSafe (vid : List Char) : Prop :=
  (digitRunLen vid = 0 ∨ vid[digitRunLen vid]? ≠ some '_') ∧
  vid.all Char.isDigit = false

lemma processLangs_first_stop (tool : List Char → ToolOutcome) :
    ∀ (prefs : List (List Char)) (i : Nat) (hi : i < prefs.length),
      (∀ j (hj : j < i),
        downloadSubtitle (tool (prefs.get ⟨j, Nat.lt_trans hj hi⟩)) = .ok none) →
      downloadSubtitle (tool (prefs.get ⟨i, hi⟩)) ≠ .ok none →
      processLangs tool prefs =
        (prefs.take (i + 1),
         stopOutcome (prefs.get ⟨i, hi⟩)
           (downloadSubtitle (tool (prefs.get ⟨i, hi⟩)))) := by
  intro prefs
  induction prefs with
  | nil => intro i hi; exact absurd hi (by simp)
  | cons l rest ih =>
    intro i hi hbefore hstop
    cases i with
    | zero =>
      simp only [List.get] at hstop ⊢
      cases h : downloadSubtitle (tool l) with
      | error e => simp [processLangs, h, stopOutcome]
      | ok o =>
        cases o with
        | none => exact absurd h hstop
        | some ext => simp [processLangs, h, stopOutcome]
    | succ k =>
      have h0 : downloadSubtitle (tool l) = .ok none := hbefore 0 (Nat.succ_pos k)
      have hk : k < rest.length := Nat.lt_of_succ_lt_succ hi
      have hrest := ih k hk
        (fun j hj => hbefore (j + 1) (Nat.succ_lt_succ hj))
        hstop
      simp only [processLangs, h0, hrest, List.take_succ_cons,
        List.get_cons_succ]

lemma processLangs_success_inv (tool : List Char → ToolOutcome) :
    ∀ (prefs : List (List Char)) (calls : List (List Char))
      (lang ext : List Char),
      processLangs tool prefs = (calls, .success lang ext) →
      ∃ i, ∃ hi : i < prefs.length,
        prefs.get ⟨i, hi⟩ = lang ∧
        (∀ j (hj : j < i),
          downloadSubtitle (tool (prefs.get ⟨j, Nat.lt_trans hj hi⟩)) = .ok none) ∧
        downloadSubtitle (tool lang) = .ok (some ext) ∧
        calls = prefs.take (i + 1) := by
  intro prefs
  induction prefs with
  | nil => intro calls lang ext h; simp [processLangs] at h
  | cons l rest ih =>
    intro calls lang ext h
    cases hdl : downloadSubtitle (tool l) with
    | error e => simp [processLangs, hdl] at h
    | ok o =>
      cases o with
      | some e =>
        simp only [processLangs, hdl] at h
        have hc : calls = [l] := (congrArg Prod.fst h).symm
        have ho : VideoOutcome.success l e = .success lang ext :=
          congrArg Prod.snd h
        have hl : l = lang := ((VideoOutcome.success.injEq _ _ _ _).mp ho).1
        have he : e = ext := ((VideoOutcome.success.injEq _ _ _ _).mp ho).2
        refine ⟨0, Nat.succ_pos _, by simpa using hl, ?_, ?_, by simp [hc]⟩
        · intro j hj; exact absurd hj (Nat.not_lt_zero j)
        · rw [← hl, ← he]; exact hdl
      | none =>
        simp only [processLangs, hdl] at h
        have hc : calls = l :: (processLangs tool rest).1 :=
          (congrArg Prod.fst h).symm
        have ho : (processLangs tool rest).2 = .success lang ext :=
          congrArg Prod.snd h
        obtain ⟨i, hi, hlang, hbefore, hdl2, hcalls⟩ :=
          ih (processLangs tool rest).1 lang ext
            (by rw [← ho])
        refine ⟨i + 1, Nat.succ_lt_succ hi, ?_, ?_, hdl2, ?_⟩
        · simpa using hlang
        · intro j hj
          cases j with
          | zero => simpa using hdl
          | succ j2 => simpa using hbefore j2 (Nat.lt_of_succ_lt_succ hj)
        · rw [hc, hcalls]; rfl

lemma processLangs_all_none (tool : List Char → ToolOutcome) :
    ∀ (prefs : List (List Char)),
      (∀ l ∈ prefs, downloadSubtitle (tool l) = .ok none) →
      processLangs tool prefs = (prefs, .noneFound) := by
  intro prefs
  induction prefs with
  | nil => intro _; rfl
  | cons l rest ih =>
    intro h
    have h0 : downloadSubtitle (tool l) = .ok none := h l (by simp)
    have hr : processLangs tool rest = (rest, .noneFound) :=
      ih (fun x hx => h x (List.mem_cons_of_mem l hx))
    simp [processLangs, h0, hr]

lemma countErrored_eq (tr : List RunEntry) :
    countErrored tr = (tr.filter isFailedEntry).length := by
  unfold countErrored isFailedEntry
  rfl

lemma countOk_eq (tr : List RunEntry) :
    countOk tr = (tr.filter (fun e => !isFailedEntry e)).length := by
  unfold countOk isFailedEntry
  congr 1
  apply List.filter_congr
  intro e _
  cases e.outcome <;> rfl

lemma traceOf_length (en : Bool) (prefs : List (List Char))
    (tool : List Char → List Char → ToolOutcome)
    (titleOf : List Char → Option (List Char)) (total skipped : Nat) :
    ∀ (l : List (List Char)) (idx : Nat),
      (traceOf en prefs tool titleOf total skipped l idx).length = l.length := by
  intro l
  induction l with
  | nil => intro idx; rfl
  | cons v rest ih => intro idx; simp [traceOf, ih]

lemma traceOf_get (en : Bool) (prefs : List (List Char))
    (tool : List Char → List Char → ToolOutcome)
    (titleOf : List Char → Option (List Char)) (total skipped : Nat) :
    ∀ (l : List (List Char)) (idx k : Nat),
      (traceOf en prefs tool titleOf total skipped l idx)[k]? =
        (l[k]?).map (fun v =>
          processVideo en prefs tool titleOf total v (idx + k + skipped)) := by
  intro l
  induction l with
  | nil => intro idx k; rfl
  | cons v rest ih =>
    intro idx k
    cases k with
    | zero => simp [traceOf]
    | succ k2 =>
      have harith : idx + 1 + k2 = idx + (k2 + 1) := by omega
      simp only [traceOf, List.getElem?_cons_succ, ih (idx + 1) k2, harith]

lemma traceOf_mem_vid (en : Bool) (prefs : List (List Char))
    (tool : List Char → List Char → ToolOutcome)
    (titleOf : List Char → Option (List Char)) (total skipped : Nat) :
    ∀ (l : List (List Char)) (idx : Nat) (e : RunEntry),
      e ∈ traceOf en prefs tool titleOf total skipped l idx → e.vid ∈ l := by
  intro l
  induction l with
  | nil => intro idx e h; simp [traceOf] at h
  | cons v rest ih =>
    intro idx e h
    rcases List.mem_cons.mp h with h1 | h2
    · have hv : e.vid = v := by rw [h1]; simp [processVideo]
      rw [hv]
      exact List.mem_cons_self v rest
    · exact List.mem_cons_of_mem v (ih (idx + 1) e h2)

lemma countErrored_cons (e : RunEntry) (tr : List RunEntry) :
    countErrored (e :: tr) =
      (if isFailedEntry e then 1 else 0) + countErrored tr := by
  rw [countErrored_eq, countErrored_eq, List.filter_cons]
  cases h : isFailedEntry e <;> simp [h, Nat.add_comm]

lemma countOk_cons (e : RunEntry) (tr : List RunEntry) :
    countOk (e :: tr) = (if isFailedEntry e then 0 else 1) + countOk tr := by
  rw [countOk_eq, countOk_eq, List.filter_cons]
  cases h : isFailedEntry e <;> simp [h, Nat.add_comm]

lemma runLoop_eq (en : Bool) (prefs : List (List Char))
    (tool : List Char → List Char → ToolOutcome)
    (titleOf : List Char → Option (List Char)) (total skipped : Nat) :
    ∀ (l : List (List Char)) (idx : Nat) (p : Progress),
      runLoop en prefs tool titleOf total skipped l idx p =
        (⟨p.total,
          p.processed +
            countOk (traceOf en prefs tool titleOf total skipped l idx),
          p.skipped,
          p.failed +
            countErrored (traceOf en prefs tool titleOf total skipped l idx)⟩,
         traceOf en prefs tool titleOf total skipped l idx) := by
  intro l
  induction l with
  | nil => intro idx p; simp [runLoop, traceOf, countOk, countErrored]
  | cons v rest ih =>
    intro idx p
    simp only [runLoop, traceOf, ih]
    cases ho : (processVideo en prefs tool titleOf total v (idx + skipped)).outcome
    all_goals
      simp only [ho, countErrored_cons, countOk_cons, isFailedEntry]
      simp [Progress.mk.injEq, Prod.mk.injEq]
      try omega

lemma executeRun_eq (en : Bool) (allIds downloaded prefs : List (List Char))
    (tool : List Char → List Char → ToolOutcome)
    (titleOf : List Char → Option (List Char))
    (h : videosToDownload allIds downloaded ≠ []) :
    executeRun en allIds downloaded prefs tool titleOf =
      (⟨allIds.length,
        countOk (traceOf en prefs tool titleOf allIds.length downloaded.length
          (videosToDownload allIds downloaded) 1),
        downloaded.length,
        countErrored (traceOf en prefs tool titleOf allIds.length
          downloaded.length (videosToDownload allIds downloaded) 1)⟩,
       traceOf en prefs tool titleOf allIds.length downloaded.length
         (videosToDownload allIds downloaded) 1) := by
  have hall : allIds ≠ [] := by
    intro hnil
    apply h
    rw [hnil]
    rfl
  have h1 : allIds.isEmpty = false := by
    cases allIds with
    | nil => exact absurd rfl hall
    | cons a t => rfl
  have h2 : (videosToDownload allIds downloaded).isEmpty = false := by
    cases hvd : videosToDownload allIds downloaded with
    | nil => exact absurd hvd h
    | cons a t => rfl
  simp only [executeRun, h1, h2, Bool.false_eq_true, if_false,
    runLoop_eq]
  simp

lemma traceOf_mem (en : Bool) (prefs : List (List Char))
    (tool : List Char → List Char → ToolOutcome)
    (titleOf : List Char → Option (List Char)) (total skipped : Nat) :
    ∀ (l : List (List Char)) (idx : Nat) (e : RunEntry),
      e ∈ traceOf en prefs tool titleOf total skipped l idx →
      ∃ v, v ∈ l ∧
        ∃ i, e = processVideo en prefs tool titleOf total v i := by
  intro l
  induction l with
  | nil => intro idx e h; simp [traceOf] at h
  | cons v rest ih =>
    intro idx e h
    rcases List.mem_cons.mp h with h1 | h2
    · exact ⟨v, List.mem_cons_self v rest, idx + skipped, h1⟩
    · obtain ⟨w, hw, i, hi⟩ := ih (idx + 1) e h2
      exact ⟨w, List.mem_cons_of_mem v hw, i, hi⟩

/-- C9: the claim states construction also fails when a character lies
outside the identifier alphabet.  The code only checks emptiness and
length: eleven question marks construct successfully. -/
theorem C9_counterexample :
    (mkVideoId elevenMarks).isSome = true ∧
    elevenMarks.all isIdChar = false ∧
    elevenMarks.length = 11 := by decide

/-- C9 amended: `VideoId` construction succeeds exactly when the string
has length 11; no alphabet check is performed. -/
theorem C9_amended (s : List Char) :
    (mkVideoId s).isSome = true ↔ s.length = 11 := by
  unfold mkVideoId
  cases s with
  | nil => simp
  | cons c t =>
    by_cases h : (c :: t).length = 11
    · simp [h]
    · simp [h]

/-- C1: the claim states a zero-entry listing yields `ChannelFetchError`
and a terminated run.  In the code `get_channel_video_ids` returns `[]`
for empty tool output and `execute` then completes normally with an
all-zero progress — no error is raised. -/
theorem C1_counterexample :
    getChannelVideoIds (.ok []) = .ok [] ∧
    fullRun false true (.ok none) (.ok []) (.ok ()) [] [langEn]
      (fun _ _ => .noSubs) (fun _ => none) =
    .ok (⟨0, 0, 0, 0⟩, []) :=
  ⟨rfl, rfl⟩

/-- C1 amended: an erroring listing call terminates the run with a fetch
error, but a zero-entry listing returns an empty snapshot and the run
completes normally with an all-zero progress. -/
theorem C1_amended (en : Bool) (saveRes : Except Unit Unit)
    (downloaded prefs : List (List Char))
    (tool : List Char → List Char → ToolOutcome)
    (titleOf : List Char → Option (List Char)) :
    fullRun false en (.ok none) (.error ()) saveRes downloaded prefs tool
        titleOf = .error .fetchError ∧
    fullRun false en (.ok none) (.ok []) (.ok ()) downloaded prefs tool
        titleOf = .ok (⟨0, 0, 0, 0⟩, []) :=
  ⟨rfl, rfl⟩

/-- C4: a `CacheError` while reading the cache (here: an invalid id line)
propagates out of `_get_channel_videos` — the run terminates with the
cache error and the network fetch result is never consulted, although
the network listing would have succeeded. -/
theorem C4_theorem :
    getCachedVideoIds true true (.ok ["abc".toList]) = .error () ∧
    getChannelVideoIds (.ok ["abcdefghijk".toList]) =
      .ok ["abcdefghijk".toList] ∧
    fullRun false true (getCachedVideoIds true true (.ok ["abc".toList]))
      (.ok ["abcdefghijk".toList]) (.ok ()) [] [langEn]
      (fun _ _ => .subs extVtt true) (fun _ => some "T".toList) =
    .error .cacheError :=
  ⟨rfl, rfl, rfl⟩

/-- C3: the claim states a reported-exists-but-missing temp file is a
recoverable miss for that language.  In the code it raises
`DownloadError`: the video is classified failed, and the next preferred
language — which would have succeeded — is never called. -/
theorem C3_counterexample :
    downloadSubtitle (ToolOutcome.subs extVtt false) = .error .missingFile ∧
    downloadSubtitle (ToolOutcome.subs extVtt true) = .ok (some extVtt) ∧
    executeRun true [idA] [] [langHi, langEn]
      (fun _ l => if l = langHi then .subs extVtt false
        else .subs extVtt true)
      (fun _ => some "T".toList) =
    (⟨1, 0, 0, 1⟩, [⟨idA, 1, [langHi], .errored .missingFile, none⟩]) :=
  ⟨rfl, rfl, rfl⟩

/-- C3 amended: when the tool reports the subtitle exists but the temp
file is absent, a `DownloadError` is raised: the language loop aborts at
that language (later preferences are not called) and the video's outcome
is the missing-file error. -/
theorem C3_amended (tool : List Char → ToolOutcome)
    (prefs : List (List Char)) (i : Nat) (hi : i < prefs.length)
    (ext : List Char)
    (hbefore : ∀ j (hj : j < i),
      downloadSubtitle (tool (prefs.get ⟨j, Nat.lt_trans hj hi⟩)) = .ok none)
    (hat : tool (prefs.get ⟨i, hi⟩) = .subs ext false) :
    processLangs tool prefs =
      (prefs.take (i + 1), .errored .missingFile) := by
  have hstop : downloadSubtitle (tool (prefs.get ⟨i, hi⟩)) =
      .error .missingFile := by
    rw [hat]; rfl
  have hmain := processLangs_first_stop tool prefs i hi hbefore
    (by intro hc; rw [hstop] at hc; cases hc)
  rw [hmain, hstop]
  rfl

theorem C3_witness :
    processLangs (fun _ => ToolOutcome.subs extVtt false) [langHi] =
      ([langHi].take 1, .errored .missingFile) :=
  C3_amended (fun _ => ToolOutcome.subs extVtt false) [langHi] 0 (by decide)
    extVtt (fun j hj => absurd hj (Nat.not_lt_zero j)) rfl

/-- C5: the claim states the sequence index equals the video's global
1-based position in the channel snapshot even when completed videos are
interleaved.  Snapshot `[A, B, C]` with `B` already downloaded: `A` (global
position 1) is processed with `current_index = 2` and its filename is
numbered `2_`, not `1_`. -/
theorem C5_counterexample :
    (executeRun true [idA, idB, idC] [idB] [langEn]
        (fun _ _ => .subs extVtt true) (fun _ => some "T".toList)).2 =
      [⟨idA, 2, [langEn], .success langEn extVtt,
          some "2_aaaaaaaaaaa_T.en.vtt".toList⟩,
       ⟨idC, 3, [langEn], .success langEn extVtt,
          some "3_ccccccccccc_T.en.vtt".toList⟩] ∧
    [idA, idB, idC].indexOf idA = 0 ∧
    (2 : Nat) ≠ 0 + 1 := by
  refine ⟨by decide, by decide, by decide⟩

/-- C5 amended: the `current_index` used for the k-th video of the
to-download list (0-based) is `k + 1` plus the size of the
already-downloaded set — the downloaded videos' positions within the
snapshot are not taken into account. -/
theorem C5_amended (en : Bool) (allIds downloaded prefs : List (List Char))
    (tool : List Char → List Char → ToolOutcome)
    (titleOf : List Char → Option (List Char)) (k : Nat)
    (hk : k < (videosToDownload allIds downloaded).length) :
    ∃ e, (executeRun en allIds downloaded prefs tool titleOf).2[k]? = some e ∧
      e.vid = (videosToDownload allIds downloaded).get ⟨k, hk⟩ ∧
      e.index = k + 1 + downloaded.length := by
  have hne : videosToDownload allIds downloaded ≠ [] := by
    intro h0
    rw [h0] at hk
    exact absurd hk (by simp)
  rw [executeRun_eq en allIds downloaded prefs tool titleOf hne]
  rw [traceOf_get]
  have hget : (videosToDownload allIds downloaded)[k]? =
      some ((videosToDownload allIds downloaded).get ⟨k, hk⟩) := by
    rw [List.getElem?_eq_getElem hk]
    rfl
  rw [hget]
  refine ⟨_, rfl, rfl, ?_⟩
  show 1 + k + downloaded.length = k + 1 + downloaded.length
  omega

theorem C5_witness :
    ∃ e, (executeRun true [idA, idB, idC] [idB] [langEn]
        (fun _ _ => ToolOutcome.subs extVtt true)
        (fun _ => some "T".toList)).2[0]? = some e ∧
      e.vid = (videosToDownload [idA, idB, idC] [idB]).get ⟨0, by decide⟩ ∧
      e.index = 0 + 1 + [idB].length :=
  C5_amended true [idA, idB, idC] [idB] [langEn]
    (fun _ _ => ToolOutcome.subs extVtt true) (fun _ => some "T".toList) 0
    (by decide)

/-- C6: when a video's processing succeeds at some language, that
language is the first preference whose download returned a subtitle (all
earlier preferences returned not-available), exactly one artifact is
produced, and no download call is made for any language after the
successful one (the call list is the preference list cut at the
successful language). -/
theorem C6_theorem (en : Bool) (prefs : List (List Char))
    (tool : List Char → List Char → ToolOutcome)
    (titleOf : List Char → Option (List Char)) (total : Nat)
    (vid : List Char) (idx : Nat) (lang ext : List Char)
    (h : (processVideo en prefs tool titleOf total vid idx).outcome =
      .success lang ext) :
    ∃ i, ∃ hi : i < prefs.length,
      prefs.get ⟨i, hi⟩ = lang ∧
      (∀ j (hj : j < i),
        downloadSubtitle (tool vid (prefs.get ⟨j, Nat.lt_trans hj hi⟩)) =
          .ok none) ∧
      downloadSubtitle (tool vid lang) = .ok (some ext) ∧
      (processVideo en prefs tool titleOf total vid idx).calls =
        prefs.take (i + 1) ∧
      (processVideo en prefs tool titleOf total vid idx).artifact =
        some (generateFilename en vid
          ((titleOf vid).getD "UnknownTitle".toList) lang ext (some idx)
          (some total)) := by
  have hout : (processLangs (tool vid) prefs).2 = .success lang ext := h
  have hpl : processLangs (tool vid) prefs =
      ((processLangs (tool vid) prefs).1, .success lang ext) := by
    rw [← hout]
  obtain ⟨i, hi, h1, h2, h3, h4⟩ :=
    processLangs_success_inv (tool vid) prefs _ lang ext hpl
  refine ⟨i, hi, h1, h2, h3, h4, ?_⟩
  show (match (processLangs (tool vid) prefs).2 with
    | .success lang ext =>
      some (generateFilename en vid
        ((titleOf vid).getD "UnknownTitle".toList) lang ext (some idx)
        (some total))
    | _ => none) = _
  rw [hout]

theorem C6_witness :
    ∃ i, ∃ hi : i < [langHi, langEn].length,
      [langHi, langEn].get ⟨i, hi⟩ = langEn ∧
      (∀ j (hj : j < i),
        downloadSubtitle ((fun _ l => if l = langHi then ToolOutcome.noSubs
          else ToolOutcome.subs extVtt true) idA
            ([langHi, langEn].get ⟨j, Nat.lt_trans hj hi⟩)) = .ok none) ∧
      downloadSubtitle ((fun _ l => if l = langHi then ToolOutcome.noSubs
        else ToolOutcome.subs extVtt true) idA langEn) = .ok (some extVtt) ∧
      (processVideo true [langHi, langEn]
        (fun _ l => if l = langHi then ToolOutcome.noSubs
          else ToolOutcome.subs extVtt true)
        (fun _ => some "T".toList) 1 idA 1).calls =
        [langHi, langEn].take (i + 1) ∧
      (processVideo true [langHi, langEn]
        (fun _ l => if l = langHi then ToolOutcome.noSubs
          else ToolOutcome.subs extVtt true)
        (fun _ => some "T".toList) 1 idA 1).artifact =
        some (generateFilename true idA
          (((fun _ => some "T".toList) idA).getD "UnknownTitle".toList)
          langEn extVtt (some 1) (some 1)) :=
  C6_theorem true [langHi, langEn]
    (fun _ l => if l = langHi then ToolOutcome.noSubs
      else ToolOutcome.subs extVtt true)
    (fun _ => some "T".toList) 1 idA 1 langEn extVtt (by decide)

/-- C7: a process-level tool failure (non-zero exit or malformed JSON)
during the language attempt that follows only not-available results
aborts the remaining languages of that video (the call list is cut at
the failing language), the video's entry is counted as failed, and the
run still visits every video of the to-download list, its failed and
processed counters partitioning the trace. -/
theorem C7_theorem (en : Bool) (allIds downloaded prefs : List (List Char))
    (tool : List Char → List Char → ToolOutcome)
    (titleOf : List Char → Option (List Char)) (k i : Nat)
    (hk : k < (videosToDownload allIds downloaded).length)
    (hi : i < prefs.length)
    (hbefore : ∀ j (hj : j < i),
      downloadSubtitle (tool ((videosToDownload allIds downloaded).get ⟨k, hk⟩)
        (prefs.get ⟨j, Nat.lt_trans hj hi⟩)) = .ok none)
    (hfail : tool ((videosToDownload allIds downloaded).get ⟨k, hk⟩)
        (prefs.get ⟨i, hi⟩) = .execError ∨
      tool ((videosToDownload allIds downloaded).get ⟨k, hk⟩)
        (prefs.get ⟨i, hi⟩) = .badJson) :
    ∃ e, (executeRun en allIds downloaded prefs tool titleOf).2[k]? = some e ∧
      e.calls = prefs.take (i + 1) ∧
      isFailedEntry e = true ∧
      (executeRun en allIds downloaded prefs tool titleOf).2.length =
        (videosToDownload allIds downloaded).length ∧
      (executeRun en allIds downloaded prefs tool titleOf).1.failed =
        countErrored (executeRun en allIds downloaded prefs tool titleOf).2 ∧
      (executeRun en allIds downloaded prefs tool titleOf).1.processed =
        countOk (executeRun en allIds downloaded prefs tool titleOf).2 := by
  have hne : videosToDownload allIds downloaded ≠ [] := by
    intro h0
    rw [h0] at hk
    exact absurd hk (by simp)
  set v := (videosToDownload allIds downloaded).get ⟨k, hk⟩ with hv
  have hstop : downloadSubtitle (tool v (prefs.get ⟨i, hi⟩)) ≠ .ok none := by
    rcases hfail with hf | hf <;> rw [hf] <;> intro hc <;> cases hc
  have hpl := processLangs_first_stop (tool v) prefs i hi hbefore hstop
  have herr : ∃ err, stopOutcome (prefs.get ⟨i, hi⟩)
      (downloadSubtitle (tool v (prefs.get ⟨i, hi⟩))) = .errored err := by
    rcases hfail with hf | hf <;> rw [hf] <;> exact ⟨_, rfl⟩
  obtain ⟨err, herr⟩ := herr
  rw [executeRun_eq en allIds downloaded prefs tool titleOf hne]
  rw [traceOf_get]
  have hget : (videosToDownload allIds downloaded)[k]? = some v := by
    rw [List.getElem?_eq_getElem hk]
    rfl
  rw [hget]
  refine ⟨_, rfl, ?_, ?_, ?_, rfl, rfl⟩
  · show (processLangs (tool v) prefs).1 = prefs.take (i + 1)
    rw [hpl]
  · show isFailedEntry (processVideo en prefs tool titleOf allIds.length v
      (1 + k + downloaded.length)) = true
    unfold isFailedEntry
    have hout : (processVideo en prefs tool titleOf allIds.length v
        (1 + k + downloaded.length)).outcome = .errored err := by
      show (processLangs (tool v) prefs).2 = .errored err
      rw [hpl]
      exact herr
    rw [hout]
  · rw [traceOf_length]

theorem C7_witness :
    ∃ e, (executeRun true [idA] [] [langHi, langEn]
        (fun _ l => if l = langHi then ToolOutcome.noSubs
          else ToolOutcome.badJson)
        (fun _ => some "T".toList)).2[0]? = some e ∧
      e.calls = [langHi, langEn].take (1 + 1) ∧
      isFailedEntry e = true ∧
      (executeRun true [idA] [] [langHi, langEn]
        (fun _ l => if l = langHi then ToolOutcome.noSubs
          else ToolOutcome.badJson)
        (fun _ => some "T".toList)).2.length =
        (videosToDownload [idA] []).length ∧
      (executeRun true [idA] [] [langHi, langEn]
        (fun _ l => if l = langHi then ToolOutcome.noSubs
          else ToolOutcome.badJson)
        (fun _ => some "T".toList)).1.failed =
        countErrored (executeRun true [idA] [] [langHi, langEn]
          (fun _ l => if l = langHi then ToolOutcome.noSubs
            else ToolOutcome.badJson)
          (fun _ => some "T".toList)).2 ∧
      (executeRun true [idA] [] [langHi, langEn]
        (fun _ l => if l = langHi then ToolOutcome.noSubs
          else ToolOutcome.badJson)
        (fun _ => some "T".toList)).1.processed =
        countOk (executeRun true [idA] [] [langHi, langEn]
          (fun _ l => if l = langHi then ToolOutcome.noSubs
            else ToolOutcome.badJson)
          (fun _ => some "T".toList)).2 :=
  C7_theorem true [idA] [] [langHi, langEn]
    (fun _ l => if l = langHi then ToolOutcome.noSubs
      else ToolOutcome.badJson)
    (fun _ => some "T".toList) 0 1 (by decide) (by decide)
    (fun j hj => by
      have hj0 : j = 0 := by omega
      subst hj0
      rfl)
    (Or.inr (by decide))

/-- C8: every video handed to the acquisition engine during a run (every
trace entry) has an id outside the Completion Tracker's
already-downloaded set — downloaded ids are never re-attempted. -/
theorem C8_theorem (en : Bool) (allIds downloaded prefs : List (List Char))
    (tool : List Char → List Char → ToolOutcome)
    (titleOf : List Char → Option (List Char)) (e : RunEntry)
    (he : e ∈ (executeRun en allIds downloaded prefs tool titleOf).2) :
    downloaded.contains e.vid = false := by
  by_cases hne : videosToDownload allIds downloaded = []
  · exfalso
    cases h1 : allIds.isEmpty with
    | true => simp [executeRun, h1] at he
    | false => simp [executeRun, h1, hne] at he
  · rw [executeRun_eq en allIds downloaded prefs tool titleOf hne] at he
    have hv := traceOf_mem_vid en prefs tool titleOf allIds.length
      downloaded.length (videosToDownload allIds downloaded) 1 e he
    have hv2 : e.vid ∈ List.filter (fun v => !downloaded.contains v) allIds :=
      hv
    have hp := List.of_mem_filter hv2
    simpa using hp

theorem C8_witness :
    List.contains [idB]
      (processVideo true [langEn] (fun _ _ => ToolOutcome.noSubs)
        (fun _ => none) 2 idA 2).vid = false :=
  C8_theorem true [idA, idB] [idB] [langEn] (fun _ _ => ToolOutcome.noSubs)
    (fun _ => none)
    (processVideo true [langEn] (fun _ _ => ToolOutcome.noSubs)
      (fun _ => none) 2 idA 2)
    (by decide)

/-- C10: when the downloader returns not-available for every video of
the channel and every preferred language, each processed video's loop
returns normally with no artifact, the failed counter stays zero, and
the processed counter covers the whole to-download list. -/
theorem C10_theorem (en : Bool) (allIds downloaded prefs : List (List Char))
    (tool : List Char → List Char → ToolOutcome)
    (titleOf : List Char → Option (List Char))
    (h : ∀ v l, v ∈ allIds → l ∈ prefs →
      downloadSubtitle (tool v l) = .ok none) :
    (executeRun en allIds downloaded prefs tool titleOf).1.failed = 0 ∧
    (executeRun en allIds downloaded prefs tool titleOf).1.processed =
      (videosToDownload allIds downloaded).length ∧
    ∀ e ∈ (executeRun en allIds downloaded prefs tool titleOf).2,
      e.outcome = .noneFound ∧ e.artifact = none := by
  by_cases hne : videosToDownload allIds downloaded = []
  · cases h1 : allIds.isEmpty with
    | true =>
      refine ⟨?_, ?_, ?_⟩ <;> simp [executeRun, h1, hne]
    | false =>
      refine ⟨?_, ?_, ?_⟩ <;> simp [executeRun, h1, hne]
  · have hmem : ∀ e ∈ (executeRun en allIds downloaded prefs tool
        titleOf).2, e.outcome = .noneFound ∧ e.artifact = none := by
      intro e he
      rw [executeRun_eq en allIds downloaded prefs tool titleOf hne] at he
      obtain ⟨v, hvmem, i, hei⟩ := traceOf_mem en prefs tool titleOf
        allIds.length downloaded.length (videosToDownload allIds downloaded)
        1 e he
      have hvall : v ∈ allIds := List.mem_of_mem_filter hvmem
      have hpl : processLangs (tool v) prefs = (prefs, .noneFound) :=
        processLangs_all_none (tool v) prefs
          (fun l hl => h v l hvall hl)
      constructor
      · rw [hei]
        show (processLangs (tool v) prefs).2 = .noneFound
        rw [hpl]
      · rw [hei]
        show (match (processLangs (tool v) prefs).2 with
          | .success lang ext =>
            some (generateFilename en v
              ((titleOf v).getD "UnknownTitle".toList) lang ext (some i)
              (some allIds.length))
          | _ => none) = none
        rw [hpl]
    have hfilterF : ∀ e ∈ (executeRun en allIds downloaded prefs tool
        titleOf).2, isFailedEntry e = false := by
      intro e he
      have := (hmem e he).1
      unfold isFailedEntry
      rw [this]
    refine ⟨?_, ?_, hmem⟩
    · rw [executeRun_eq en allIds downloaded prefs tool titleOf
        hne] at hfilterF ⊢
      show countErrored _ = 0
      rw [countErrored_eq]
      have : List.filter isFailedEntry (traceOf en prefs tool titleOf
          allIds.length downloaded.length
          (videosToDownload allIds downloaded) 1) = [] := by
        rw [List.filter_eq_nil_iff]
        intro a ha
        rw [hfilterF a ha]
        intro hc
        cases hc
      rw [this]
      rfl
    · rw [executeRun_eq en allIds downloaded prefs tool titleOf
        hne] at hfilterF ⊢
      show countOk _ = _
      rw [countOk_eq]
      have : List.filter (fun e => !isFailedEntry e) (traceOf en prefs tool
          titleOf allIds.length downloaded.length
          (videosToDownload allIds downloaded) 1) = traceOf en prefs tool
          titleOf allIds.length downloaded.length
          (videosToDownload allIds downloaded) 1 := by
        rw [List.filter_eq_self]
        intro a ha
        rw [hfilterF a ha]
        rfl
      rw [this, traceOf_length]

theorem C10_witness :
    (executeRun true [idA] [] [langHi, langEn]
      (fun _ _ => ToolOutcome.noSubs) (fun _ => none)).1.failed = 0 ∧
    (executeRun true [idA] [] [langHi, langEn]
      (fun _ _ => ToolOutcome.noSubs) (fun _ => none)).1.processed =
      (videosToDownload [idA] []).length ∧
    ∀ e ∈ (executeRun true [idA] [] [langHi, langEn]
      (fun _ _ => ToolOutcome.noSubs) (fun _ => none)).2,
      e.outcome = .noneFound ∧ e.artifact = none :=
  C10_theorem true [idA] [] [langHi, langEn]
    (fun _ _ => ToolOutcome.noSubs) (fun _ => none)
    (fun _ _ _ _ => rfl)

lemma digitChar_isDigit (n : Nat) : (digitChar n).isDigit = true := by
  have h10 : n % 10 < 10 := Nat.mod_lt n (by omega)
  have hAll : ∀ m, m < 10 → (Char.ofNat (48 + m)).isDigit = true := by decide
  exact hAll (n % 10) h10

lemma natDigitsAux_spec :
    ∀ (fuel n : Nat), n < fuel →
      natDigitsAux fuel n ≠ [] ∧
      ∀ c ∈ natDigitsAux fuel n, c.isDigit = true := by
  intro fuel
  induction fuel with
  | zero => intro n hn; exact absurd hn (by omega)
  | succ f ih =>
    intro n hn
    by_cases h10 : n < 10
    · refine ⟨by simp [natDigitsAux, h10], ?_⟩
      intro c hc
      simp [natDigitsAux, h10] at hc
      rw [hc]
      exact digitChar_isDigit n
    · have hdiv : n / 10 < f := by
        have h1 : n / 10 < n := Nat.div_lt_self (by omega) (by omega)
        omega
      obtain ⟨hne, hdig⟩ := ih (n / 10) hdiv
      constructor
      · simp [natDigitsAux, h10]
      · intro c hc
        simp only [natDigitsAux, h10, if_false] at hc
        rcases List.mem_append.mp hc with h1 | h1
        · exact hdig c h1
        · simp at h1
          rw [h1]
          exact digitChar_isDigit (n % 10)

lemma natDigits_ne_nil (n : Nat) : natDigits n ≠ [] :=
  (natDigitsAux_spec (n + 1) n (by omega)).1

lemma natDigits_all_digit (n : Nat) : ∀ c ∈ natDigits n, c.isDigit = true :=
  (natDigitsAux_spec (n + 1) n (by omega)).2

lemma zfill_ne_nil (w : Nat) (s : List Char) (h : s ≠ []) :
    zfill w s ≠ [] := by
  unfold zfill
  by_cases hw : w ≤ s.length
  · simp [hw, h]
  · simp [hw]
    intro _
    exact h

lemma zfill_all_digit (w : Nat) (s : List Char)
    (h : ∀ c ∈ s, c.isDigit = true) :
    ∀ c ∈ zfill w s, c.isDigit = true := by
  unfold zfill
  by_cases hw : w ≤ s.length
  · simp only [hw, if_true]
    exact h
  · simp only [hw, if_false]
    intro c hc
    rcases List.mem_append.mp hc with h1 | h1
    · have := List.eq_of_mem_replicate h1
      rw [this]
      rfl
    · exact h c h1

lemma numTag_ne_nil (i : Nat) (t : Option Nat) : generateNumberTag i t ≠ [] := by
  unfold generateNumberTag
  cases t with
  | none => exact zfill_ne_nil 4 (natDigits i) (natDigits_ne_nil i)
  | some tc =>
    exact zfill_ne_nil (natDigits tc).length (natDigits i) (natDigits_ne_nil i)

lemma numTag_all_digit (i : Nat) (t : Option Nat) :
    ∀ c ∈ generateNumberTag i t, c.isDigit = true := by
  unfold generateNumberTag
  cases t with
  | none => exact zfill_all_digit 4 (natDigits i) (natDigits_all_digit i)
  | some tc =>
    exact zfill_all_digit (natDigits tc).length (natDigits i)
      (natDigits_all_digit i)

lemma takeWhile_append_run (p : Char → Bool) :
    ∀ (xs : List Char) (y : Char) (ys : List Char),
      (∀ c ∈ xs, p c = true) → p y = false →
      (xs ++ y :: ys).takeWhile p = xs := by
  intro xs
  induction xs with
  | nil =>
    intro y ys _ hy
    simp [List.takeWhile, hy]
  | cons x t ih =>
    intro y ys hall hy
    have hx : p x = true := hall x (by simp)
    rw [List.cons_append, List.takeWhile_cons_of_pos hx,
      ih y ys (fun c hc => hall c (by simp [hc])) hy]

lemma dropWhile_head_false (p : Char → Bool) :
    ∀ (l : List Char) (c : Char) (tail : List Char),
      l.dropWhile p = c :: tail → p c = false := by
  intro l
  induction l with
  | nil => intro c tail h; simp [List.dropWhile] at h
  | cons a t ih =>
    intro c tail h
    by_cases ha : p a = true
    · rw [List.dropWhile_cons_of_pos ha] at h
      exact ih c tail h
    · rw [List.dropWhile_cons_of_neg ha] at h
      have : a = c := (List.cons.injEq a t c tail).mp h |>.1
      rw [← this]
      exact Bool.not_eq_true (p a) |>.mp ha

lemma digitRunLen_append (num : List Char) (rest : List Char)
    (h : ∀ c ∈ num, c.isDigit = true) :
    digitRunLen (num ++ '_' :: rest) = num.length := by
  unfold digitRunLen
  rw [takeWhile_append_run Char.isDigit num '_' rest h (by decide)]

lemma tryCapture_append (vid rest : List Char) (h11 : vid.length = 11)
    (hall : vid.all isIdChar = true) :
    tryCapture (vid ++ '_' :: rest) = some vid := by
  have htake : (vid ++ '_' :: rest).take 11 = vid := List.take_left' h11
  have hget : (vid ++ '_' :: rest)[11]? = some '_' := by
    rw [List.getElem?_append_right (by omega)]
    rw [h11]
    simp
  unfold tryCapture
  rw [htake]
  simp [h11, hall, hget]

lemma tryDigitRun_none (s : List Char) :
    ∀ (n : Nat), (∀ k, 1 ≤ k → k ≤ n → s[k]? ≠ some '_') →
      tryDigitRun s n = none := by
  intro n
  induction n with
  | zero => intro _; rfl
  | succ j ih =>
    intro h
    have hj1 : s[j + 1]? ≠ some '_' := h (j + 1) (by omega) (by omega)
    unfold tryDigitRun
    rw [if_neg hj1]
    exact ih (fun k hk1 hk2 => h k hk1 (by omega))

lemma generateFilename_numbered (vid title lang fmt : List Char) (idx : Nat)
    (total : Option Nat) :
    generateFilename true vid title lang fmt (some idx) total =
      generateNumberTag idx total ++ '_' ::
        (vid ++ '_' ::
          (sanitizeTitle title ++ '.' :: (lang ++ '.' :: fmt))) := by
  unfold generateFilename
  simp [List.append_assoc, List.cons_append]

lemma generateFilename_unnumbered (vid title lang fmt : List Char)
    (index total : Option Nat) :
    generateFilename false vid title lang fmt index total =
      vid ++ '_' :: (sanitizeTitle title ++ '.' :: (lang ++ '.' :: fmt)) := by
  unfold generateFilename
  cases index <;> simp [List.append_assoc, List.cons_append]

lemma parse_numbered (vid title lang fmt : List Char) (idx : Nat)
    (total : Option Nat) (h11 : vid.length = 11)
    (hall : vid.all isIdChar = true) :
    parseVideoId (generateFilename true vid title lang fmt (some idx)
      total) = some vid := by
  rw [generateFilename_numbered]
  set num := generateNumberTag idx total with hnumdef
  set tail := sanitizeTitle title ++ '.' :: (lang ++ '.' :: fmt) with htail
  have hdig : ∀ c ∈ num, c.isDigit = true := numTag_all_digit idx total
  have hne : num ≠ [] := numTag_ne_nil idx total
  have hrun : digitRunLen (num ++ '_' :: (vid ++ '_' :: tail)) = num.length :=
    digitRunLen_append num _ hdig
  obtain ⟨m, hm⟩ : ∃ m, num.length = m + 1 :=
    Nat.exists_eq_succ_of_ne_zero
      (Nat.pos_iff_ne_zero.mp (List.length_pos.mpr hne))
  have hget : (num ++ '_' :: (vid ++ '_' :: tail))[num.length]? = some '_' := by
    rw [List.getElem?_append_right (Nat.le_refl _)]
    simp
  have hassoc : num ++ '_' :: (vid ++ '_' :: tail) =
      (num ++ ['_']) ++ (vid ++ '_' :: tail) := by
    simp [List.append_assoc]
  have hdrop : (num ++ '_' :: (vid ++ '_' :: tail)).drop (num.length + 1) =
      vid ++ '_' :: tail := by
    rw [hassoc]
    exact List.drop_left' (by simp)
  have hcap : tryCapture (vid ++ '_' :: tail) = some vid :=
    tryCapture_append vid tail h11 hall
  rw [hm] at hget hdrop
  have hstep : tryDigitRun (num ++ '_' :: (vid ++ '_' :: tail)) (m + 1) =
      some vid := by
    unfold tryDigitRun
    rw [if_pos hget]
    rw [show m + 1 + 1 = m + 2 from rfl] at hdrop
    rw [hdrop, hcap]
  unfold parseVideoId
  rw [hrun, hm, hstep]

lemma parse_unnumbered (vid title lang fmt : List Char)
    (index total : Option Nat) (h11 : vid.length = 11)
    (hall : vid.all isIdChar = true) (hsafe : digitUnderscoreSafe vid) :
    parseVideoId (generateFilename false vid title lang fmt index total) =
      some vid := by
  rw [generateFilename_unnumbered]
  set tail := sanitizeTitle title ++ '.' :: (lang ++ '.' :: fmt) with htail
  obtain ⟨hs1, hs2⟩ := hsafe
  set run := vid.takeWhile Char.isDigit with hrundef
  set rest0 := vid.dropWhile Char.isDigit with hrest0def
  have hsplit : run ++ rest0 = vid :=
    List.takeWhile_append_dropWhile Char.isDigit vid
  have hrest0_ne : rest0 ≠ [] := by
    intro h0
    have hvidrun : vid = run := by rw [← hsplit, h0, List.append_nil]
    have hdigall : vid.all Char.isDigit = true := by
      rw [List.all_eq_true]
      intro c hc
      exact List.mem_takeWhile_imp (hvidrun ▸ hc)
    rw [hdigall] at hs2
    cases hs2
  obtain ⟨c, tl, hso⟩ : ∃ c tl, rest0 = c :: tl := by
    cases hr : rest0 with
    | nil => exact absurd hr hrest0_ne
    | cons a t => exact ⟨a, t, rfl⟩
  have hc_not_digit : Char.isDigit c = false :=
    dropWhile_head_false Char.isDigit vid c tl (by rw [← hrest0def, hso])
  have hrun_digits : ∀ x ∈ run, Char.isDigit x = true :=
    fun x hx => List.mem_takeWhile_imp hx
  have hs_eq : vid ++ '_' :: tail = run ++ c :: (tl ++ '_' :: tail) := by
    rw [← hsplit, hso]
    simp [List.append_assoc]
  have hrunlen : digitRunLen (vid ++ '_' :: tail) = run.length := by
    unfold digitRunLen
    rw [hs_eq, takeWhile_append_run Char.isDigit run c (tl ++ '_' :: tail)
      hrun_digits hc_not_digit]
  have hdvid : digitRunLen vid = run.length := by
    unfold digitRunLen
    rw [← hrundef]
  have hcvid : vid[run.length]? = some c := by
    rw [← hsplit, hso, List.getElem?_append_right (Nat.le_refl _)]
    simp
  have hnone : tryDigitRun (vid ++ '_' :: tail) run.length = none := by
    apply tryDigitRun_none
    intro k hk1 hk2
    by_cases hkr : k < run.length
    · rw [hs_eq, List.getElem?_append_left hkr,
        List.getElem?_eq_getElem hkr]
      intro hcontra
      have hu : run.get ⟨k, hkr⟩ = '_' := by
        injection hcontra
      have hd := hrun_digits (run.get ⟨k, hkr⟩) (List.get_mem run k hkr)
      rw [hu] at hd
      exact absurd hd (by decide)
    · have hk : k = run.length := by omega
      subst hk
      rw [hs_eq, List.getElem?_append_right (Nat.le_refl _)]
      simp only [Nat.sub_self, List.getElem?_cons_zero]
      rcases hs1 with h0 | hneq
      · rw [hdvid] at h0
        omega
      · intro hcontra
        apply hneq
        rw [hdvid, hcvid]
        injection hcontra with hc_eq
        rw [hc_eq]
  unfold parseVideoId
  rw [hrunlen, hnone, tryCapture_append vid tail h11 hall]

/-- C2: the claim states the round-trip holds for every id, title and
numbering mode.  With numbering disabled, a valid id beginning with a
digit run and an underscore can be mis-parsed through the regex's
optional digit branch: id `1_aaaaaaaaa` with title `b_c` produces
`1_aaaaaaaaa_b_c.en.vtt`, from which the tracker recovers
`aaaaaaaaa_b`. -/
theorem C2_counterexample :
    mkVideoId "1_aaaaaaaaa".toList = some "1_aaaaaaaaa".toList ∧
    "1_aaaaaaaaa".toList.all isIdChar = true ∧
    generateFilename false "1_aaaaaaaaa".toList "b_c".toList langEn extVtt
      none none = "1_aaaaaaaaa_b_c.en.vtt".toList ∧
    parseVideoId "1_aaaaaaaaa_b_c.en.vtt".toList =
      some "aaaaaaaaa_b".toList ∧
    "aaaaaaaaa_b".toList ≠ "1_aaaaaaaaa".toList := by
  refine ⟨by decide, by decide, by decide, by decide, by decide⟩

/-- C2 amended: with numbering enabled the parser always recovers the
original id; with numbering disabled it recovers it provided the id does
not begin with a non-empty digit run followed by an underscore and is
not all digits (otherwise the optional digit branch of the pattern can
capture a shifted id, as the counterexample shows). -/
theorem C2_amended :
    (∀ (vid title lang fmt : List Char) (idx : Nat) (total : Option Nat),
      vid.length = 11 → vid.all isIdChar = true →
      parseVideoId (generateFilename true vid title lang fmt (some idx)
        total) = some vid) ∧
    (∀ (vid title lang fmt : List Char) (index total : Option Nat),
      vid.length = 11 → vid.all isIdChar = true → digitUnderscoreSafe vid →
      parseVideoId (generateFilename false vid title lang fmt index total) =
        some vid) :=
  ⟨fun vid title lang fmt idx total h11 hall =>
    parse_numbered vid title lang fmt idx total h11 hall,
   fun vid title lang fmt index total h11 hall hsafe =>
    parse_unnumbered vid title lang fmt index total h11 hall hsafe⟩

theorem C2_witness :
    parseVideoId (generateFilename true "abc-defghij".toList
      "My Title".toList langEn extVtt (some 7) (some 123)) =
      some "abc-defghij".toList ∧
    parseVideoId (generateFilename false "abc-defghij".toList
      "My Title".toList langEn extVtt none none) =
      some "abc-defghij".toList :=
  ⟨C2_amended.1 "abc-defghij".toList "My Title".toList langEn extVtt 7
    (some 123) (by decide) (by decide),
   C2_amended.2 "abc-defghij".toList "My Title".toList langEn extVtt none
    none (by decide) (by decide) ⟨Or.inl (by decide), by decide⟩⟩
